import Mathlib

/-!
Verification of the PDFEngine layout-and-render core (src/engine/pdf-engine.js).

The engine walks a declarative document specification (a list of typed
elements), threads a mutable cursor (current page index, x, y) through every
element renderer, and emits positioned drawing primitives plus clickable-region
annotations.  We embed the renderer shallowly: the underlying drawing library
(PDFKit) is the collaborator of spec section 6, so its text-measurement
behaviour is an oracle (the Measure structure below), while every layout
decision of the engine itself (cursor arithmetic, page breaks, defaults,
annotation boxes) is translated directly from the JavaScript source.

Coordinates are rationals.  JavaScript truthiness defaults (the pervasive
"el.attr || default" and "el.attr ?? default" idioms) are modelled explicitly
by the js* helpers so that falsy-but-present values (0, empty string) behave
exactly as in the source.
-/

/-- Page geometry: page size and margins, as held by doc.page in PDFKit. -/
structure PageCfg where
  width : ℚ
  height : ℚ
  mTop : ℚ
  mBottom : ℚ
  mLeft : ℚ
  mRight : ℚ
deriving DecidableEq, Repr

/-- Options passed to a text write, mirroring the object built by
_textOptions plus the per-call overrides the renderers add (link, underline).
This matches the collaborator interface placeText(text, x, y, opts) of the
spec, extended with the extra fields _textOptions forwards to PDFKit. -/
structure TextOpts where
  width : Option ℚ := none
  align : Option String := none
  link : Option String := none
  underline : Bool := false
  strike : Bool := false
  oblique : Bool := false
  indent : Option ℚ := none
  lineGap : Option ℚ := none
  continued : Bool := false
deriving DecidableEq, Repr

/-- Drawing primitives emitted by the engine, each tagged with the page index
current at the moment of emission.  These are the draw commands of the
collaborator interface in spec section 6. -/
inductive Prim where
  | placeText (page : Nat) (x y : ℚ) (text : String) (opts : TextOpts)
  | fillRect (page : Nat) (x y w h : ℚ) (color : String)
  | strokeRect (page : Nat) (x y w h : ℚ) (color : String) (lineWidth : ℚ)
  | strokeLine (page : Nat) (x1 y1 x2 y2 : ℚ) (color : String) (lineWidth : ℚ)
  | placeImage (page : Nat) (src : String) (x y : ℚ) (w h : Option ℚ)
  | linkAnnot (page : Nat) (x y w h : ℚ) (url : String)
deriving DecidableEq, Repr

/-- Oracles for the collaborator drawing library: how much vertical space a
text write consumes, the current line height used by moveDown, the height an
image occupies in flow placement, and the pseudo-random stream used by the
overlay renderer's cosmetic bars. -/
structure Measure where
  textHeight : ℚ → String → TextOpts → ℚ
  lineHeight : ℚ → ℚ
  imageHeight : String → Option ℚ → Option ℚ → ℚ
  rand : Nat → ℚ

/-- Engine construction options with their constructor defaults
(defaultFontSize 12, Helvetica, 50pt margins, A4 = 595.28 x 841.89 pt). -/
structure Engine where
  defaultFontSize : ℚ := 12
  defaultFont : String := "Helvetica"
  mTop : ℚ := 50
  mBottom : ℚ := 50
  mLeft : ℚ := 50
  mRight : ℚ := 50
  pageWidth : ℚ := 59528 / 100
  pageHeight : ℚ := 84189 / 100
deriving DecidableEq, Repr

/-- The mutable render state: the PDFKit document as the engine sees it.
page is the current page index (bufferPages model: pages are only appended),
(x, y) the cursor, font / fontSize / fillColor the current graphics state,
rnd the position in the pseudo-random stream, prims the append-only trace of
emitted drawing primitives. -/
structure DocState where
  cfg : PageCfg
  page : Nat := 0
  x : ℚ
  y : ℚ
  font : String := "Helvetica"
  fontSize : ℚ := 12
  fillColor : String := "#000000"
  rnd : Nat := 0
  prims : List Prim := []
deriving DecidableEq, Repr

/-! JavaScript coercion helpers.  jsStr / jsNum model the `a || d` idiom
(falsy values "" and 0 fall through to the default); strTruthy / numTruthy
model a bare truthiness test; optStr / optNum model the "set the option only
when truthy" pattern of _textOptions. -/

def jsStr (o : Option String) (d : String) : String :=
  match o with
  | some s => if s = "" then d else s
  | none => d

def jsNum (o : Option ℚ) (d : ℚ) : ℚ :=
  match o with
  | some v => if v = 0 then d else v
  | none => d

def jsNat (o : Option Nat) (d : Nat) : Nat :=
  match o with
  | some v => if v = 0 then d else v
  | none => d

def strTruthy (o : Option String) : Bool :=
  match o with
  | some s => s != ""
  | none => false

def numTruthy (o : Option ℚ) : Bool :=
  match o with
  | some v => v != 0
  | none => false

def optStr (o : Option String) : Option String :=
  if strTruthy o then o else none

def optNum (o : Option ℚ) : Option ℚ :=
  if numTruthy o then o else none

/-! Document operations: the PDFKit calls the engine makes, as state
transformers over DocState. -/

def setFont (st : DocState) (f : String) : DocState := { st with font := f }

def setFontSize (st : DocState) (s : ℚ) : DocState := { st with fontSize := s }

def setFillColor (st : DocState) (c : String) : DocState := { st with fillColor := c }

def emit (st : DocState) (p : Prim) : DocState := { st with prims := st.prims ++ [p] }

/-- doc.text(str, opts): write at the cursor, advance y by the consumed height. -/
def textFlow (m : Measure) (st : DocState) (s : String) (o : TextOpts) : DocState :=
  let st := emit st (.placeText st.page st.x st.y s o)
  { st with y := st.y + m.textHeight st.fontSize s o }

/-- doc.text(str, x, y, opts): write at an explicit position; PDFKit moves the
cursor to the write position and advances y past the text. -/
def textAt (m : Measure) (st : DocState) (s : String) (px py : ℚ) (o : TextOpts) : DocState :=
  let st := emit st (.placeText st.page px py s o)
  { st with x := px, y := py + m.textHeight st.fontSize s o }

def fillRectOp (st : DocState) (x y w h : ℚ) (c : String) : DocState :=
  emit st (.fillRect st.page x y w h c)

def strokeRectOp (st : DocState) (x y w h : ℚ) (c : String) (lw : ℚ) : DocState :=
  emit st (.strokeRect st.page x y w h c lw)

def strokeLineOp (st : DocState) (x1 y1 x2 y2 : ℚ) (c : String) (lw : ℚ) : DocState :=
  emit st (.strokeLine st.page x1 y1 x2 y2 c lw)

def linkOp (st : DocState) (x y w h : ℚ) (url : String) : DocState :=
  emit st (.linkAnnot st.page x y w h url)

/-- doc.addPage(): start a new page and reset the cursor to its top-left
content corner. -/
def addPage (st : DocState) : DocState :=
  { st with page := st.page + 1, x := st.cfg.mLeft, y := st.cfg.mTop }

/-- doc.moveDown(n): advance y by n line heights at the current font size. -/
def moveDownOp (m : Measure) (st : DocState) (n : ℚ) : DocState :=
  { st with y := st.y + n * m.lineHeight st.fontSize }

/-- The bottom bound of the content area: page height minus bottom margin. -/
def pageBottom (cfg : PageCfg) : ℚ := cfg.height - cfg.mBottom

def contentWidth (cfg : PageCfg) : ℚ := cfg.width - cfg.mLeft - cfg.mRight

/-! The element data model.  Every kind-specific attribute of the JavaScript
element objects is optional (absent modelled as none); the attributes shared
by the text-like renderers (everything _textOptions and _applyFont read) are
collected in TextAttrs. -/

/-- Attributes read by _applyFont, _textOptions and the text-like renderers. -/
structure TextAttrs where
  value : Option String := none
  font : Option String := none
  fontSize : Option ℚ := none
  color : Option String := none
  align : Option String := none
  width : Option ℚ := none
  link : Option String := none
  underline : Bool := false
  strike : Bool := false
  oblique : Bool := false
  indent : Option ℚ := none
  lineGap : Option ℚ := none
  continued : Bool := false
  moveDown : Option ℚ := none

/-- A table cell value: a plain string, or an object with text / link / color
fields.  A missing cell is modelled as none at the use site. -/
inductive CellVal where
  | str (s : String)
  | obj (text : Option String) (link : Option String) (color : Option String)
deriving DecidableEq, Repr

abbrev TableRow := List (Option CellVal)

/-- Attributes of a table element, with the engine defaults documented at the
resolution site (tableParams).  gridLines models el.gridLines !== false. -/
structure TableAttrs where
  headers : List String := []
  rows : List TableRow := []
  columnWidths : Option (List ℚ) := none
  x : Option ℚ := none
  headerFont : Option String := none
  bodyFont : Option String := none
  fontSize : Option ℚ := none
  headerBackground : Option String := none
  headerColor : Option String := none
  alternateRowBackground : Option String := none
  cellPadding : Option ℚ := none
  rowHeight : Option ℚ := none
  gridLines : Bool := true
  gridColor : Option String := none

/-- A list item: a plain string or an object with text and link fields. -/
inductive ListItem where
  | str (s : String)
  | obj (text : Option String) (link : Option String)
deriving DecidableEq, Repr

structure ImageAttrs where
  x : Option ℚ := none
  y : Option ℚ := none
  width : Option ℚ := none
  height : Option ℚ := none
  align : Option String := none
  valign : Option String := none
  link : Option String := none
  moveDown : Option ℚ := none

structure OverlayAttrs where
  height : Option ℚ := none
  color : Option String := none
  opacity : Option ℚ := none
  label : Option String := none
  url : Option String := none
  labelColor : Option String := none
  labelSize : Option ℚ := none
  lines : Option Nat := none
  lineColor : Option String := none

/-- Page-numbering options.  pfx is the JS field named after the string put
before the page number (default written out in stampPage). -/
structure PageNumCfg where
  align : Option String := none
  fontSize : Option ℚ := none
  pfx : Option String := none
  color : Option String := none

/-- The tagged element variants dispatched by _renderElement.  An element
whose type string is not one of the registered kinds is represented by the
unknown constructor carrying that string. -/
inductive Element where
  | text (a : TextAttrs)
  | heading (level : Option Nat) (a : TextAttrs)
  | link (url : Option String) (stealth : Bool) (a : TextAttrs)
  | list (items : List ListItem) (ordered : Bool) (indent : Option ℚ) (a : TextAttrs)
  | table (t : TableAttrs)
  | image (src : String) (ia : ImageAttrs)
  | divider (x width thickness spacing : Option ℚ) (color : Option String)
  | spacer (lines : Option ℚ)
  | columns (gap : Option ℚ) (cols : List (List Element))
  | rect (x y width height : ℚ) (fill stroke : Option String)
      (lineWidth : Option ℚ) (link : Option String)
  | overlay (o : OverlayAttrs)
  | stealthLink (url : Option String) (a : TextAttrs)
  | pageBreak
  | unknown (kind : String)

/-- The type strings _renderElement has a renderer for. -/
def registeredKinds : List String :=
  ["text", "heading", "link", "list", "table", "image", "divider", "spacer",
   "columns", "rect", "overlay", "stealthLink", "pageBreak"]

/-- The column renderer's child patching: the JS spread { ...child, width }
overwrites the width property of the child object.  Constructors that never
read a width are returned unchanged (the property would be ignored). -/
def setWidth (e : Element) (w : ℚ) : Element :=
  match e with
  | .text a => .text { a with width := some w }
  | .heading lv a => .heading lv { a with width := some w }
  | .link url s a => .link url s { a with width := some w }
  | .list items o ind a => .list items o ind { a with width := some w }
  | .table t => .table t
  | .image src ia => .image src { ia with width := some w }
  | .divider x _ th sp c => .divider x (some w) th sp c
  | .spacer l => .spacer l
  | .columns g cols => .columns g cols
  | .rect x y _ h f s lw lnk => .rect x y w h f s lw lnk
  | .overlay o => .overlay o
  | .stealthLink url a => .stealthLink url { a with width := some w }
  | .pageBreak => .pageBreak
  | .unknown k => .unknown k

mutual

/-- Structural size of an element, counting only the nesting of columns;
used as the termination measure of the renderer. -/
def esize : Element → Nat
  | .columns _ cols => csize cols + 1
  | _ => 1

def csize : List (List Element) → Nat
  | [] => 0
  | c :: cs => lsize c + csize cs + 1

def lsize : List Element → Nat
  | [] => 0
  | e :: es => esize e + lsize es + 1

end

theorem esize_setWidth (e : Element) (w : ℚ) : esize (setWidth e w) = esize e := by
  cases e <;> simp [esize, setWidth]

/-! Element renderers, translated one-to-one from the source. -/

/-- _textOptions: build the text options object, setting each field only when
the corresponding attribute is truthy. -/
def textOptionsOf (a : TextAttrs) : TextOpts :=
  { align := optStr a.align
    width := optNum a.width
    link := optStr a.link
    underline := a.underline
    strike := a.strike
    oblique := a.oblique
    indent := optNum a.indent
    lineGap := optNum a.lineGap
    continued := a.continued }

/-- _applyFont: doc.font(el.font || default).fontSize(el.fontSize || default)
.fillColor(el.color || black). -/
def applyFont (eng : Engine) (st : DocState) (a : TextAttrs) : DocState :=
  setFillColor
    (setFontSize (setFont st (jsStr a.font eng.defaultFont))
      (jsNum a.fontSize eng.defaultFontSize))
    (jsStr a.color "#000000")

/-- _renderText. -/
def renderText (m : Measure) (eng : Engine) (st : DocState) (a : TextAttrs) : DocState :=
  let st := applyFont eng st a
  let st := textFlow m st (jsStr a.value "") (textOptionsOf a)
  if numTruthy a.moveDown then moveDownOp m st (a.moveDown.getD 0) else st

/-- The heading level-to-size table of _renderHeading. -/
def headingSize (level : Nat) : Option ℚ :=
  match level with
  | 1 => some 26
  | 2 => some 22
  | 3 => some 18
  | 4 => some 16
  | 5 => some 14
  | 6 => some 12
  | _ => none

/-- _renderHeading. -/
def renderHeading (m : Measure) (eng : Engine) (st : DocState)
    (level : Option Nat) (a : TextAttrs) : DocState :=
  let lv := jsNat level 1
  let fs := jsNum a.fontSize ((headingSize lv).getD 18)
  let st := applyFont eng st
    { a with fontSize := some fs, font := some (jsStr a.font "Helvetica-Bold") }
  let st := textFlow m st (jsStr a.value "") (textOptionsOf a)
  moveDownOp m st (a.moveDown.getD (1 / 2))

/-- _renderStealthLink: write the display text as a link-free text run, then
(if a URL is present) attach a link annotation over the box the text consumed,
its height taken from the before/after cursor delta. -/
def renderStealthLink (m : Measure) (eng : Engine) (st : DocState)
    (url : Option String) (a : TextAttrs) : DocState :=
  let fs := jsNum a.fontSize eng.defaultFontSize
  let color := jsStr a.color "#000000"
  let font := jsStr a.font eng.defaultFont
  let st := setFillColor (setFontSize (setFont st font) fs) color
  let startX := st.x
  let startY := st.y
  let opts : TextOpts :=
    { align := optStr a.align, width := optNum a.width, underline := a.underline }
  let st := textFlow m st (a.value.getD "") opts
  let st :=
    if strTruthy url then
      let endY := st.y
      let textW := jsNum a.width (contentWidth st.cfg)
      linkOp st startX startY textW (endY - startY) (url.getD "")
    else st
  if numTruthy a.moveDown then moveDownOp m st (a.moveDown.getD 0) else st

/-- _renderLink, non-stealth path: blue underlined text carrying the link in
the same write call; the visible text is el.value || el.url. -/
def renderPlainLink (m : Measure) (eng : Engine) (st : DocState)
    (url : Option String) (a : TextAttrs) : DocState :=
  let fs := jsNum a.fontSize eng.defaultFontSize
  let color := jsStr a.color "#1a0dab"
  let st := setFillColor (setFontSize (setFont st (jsStr a.font eng.defaultFont)) fs) color
  let opts : TextOpts := { textOptionsOf a with link := url, underline := true }
  let st := textFlow m st (jsStr a.value (url.getD "")) opts
  let st := setFillColor st "#000000"
  if numTruthy a.moveDown then moveDownOp m st (a.moveDown.getD 0) else st

/-- The per-item loop of _renderList (items.forEach with its index). -/
def renderListItems (m : Measure) (st : DocState) (ordered : Bool)
    (opts : TextOpts) (i : Nat) : List ListItem → DocState
  | [] => st
  | item :: rest =>
      let bullet := if ordered then toString (i + 1) ++ ". " else "• "
      let st :=
        match item with
        | .str s => textFlow m st (bullet ++ s) opts
        | .obj txt lnk =>
            textFlow m st (bullet ++ jsStr txt "")
              { opts with link := lnk, underline := strTruthy lnk }
      renderListItems m st ordered opts (i + 1) rest

/-- _renderList. -/
def renderListEl (m : Measure) (eng : Engine) (st : DocState)
    (items : List ListItem) (ordered : Bool) (indent : Option ℚ) (a : TextAttrs) : DocState :=
  let st := applyFont eng st a
  let ind := jsNum indent 15
  let opts := { textOptionsOf a with indent := some ind }
  let st := renderListItems m st ordered opts 0 items
  moveDownOp m st (a.moveDown.getD (1 / 2))

/-! Table rendering. -/

/-- _autoColumnWidths: the content-area width divided evenly among count
columns; empty for count = 0. -/
def autoColumnWidths (cfg : PageCfg) (count : Nat) : List ℚ :=
  if count = 0 then [] else List.replicate count (contentWidth cfg / count)

/-- The table attributes resolved against their defaults, as computed at the
top of _renderTable. -/
structure TableParams where
  startX : ℚ
  colW : List ℚ
  headerFont : String
  bodyFont : String
  fontSize : ℚ
  headerBg : String
  headerColor : String
  altBg : String
  pad : ℚ
  rowHeight : ℚ
  gridLines : Bool
  gridColor : String
deriving DecidableEq, Repr

def tableParams (eng : Engine) (st : DocState) (t : TableAttrs) : TableParams :=
  let fs := jsNum t.fontSize 10
  let pad := jsNum t.cellPadding 5
  { startX := jsNum t.x st.x
    colW :=
      match t.columnWidths with
      | some l => l
      | none => autoColumnWidths st.cfg t.headers.length
    headerFont := jsStr t.headerFont "Helvetica-Bold"
    bodyFont := jsStr t.bodyFont eng.defaultFont
    fontSize := fs
    headerBg := jsStr t.headerBackground "#4472C4"
    headerColor := jsStr t.headerColor "#FFFFFF"
    altBg := jsStr t.alternateRowBackground "#F2F2F2"
    pad := pad
    rowHeight := jsNum t.rowHeight (fs + pad * 2 + 4)
    gridLines := t.gridLines
    gridColor := jsStr t.gridColor "#CCCCCC" }

/-- colWidths.reduce((a, b) => a + b, 0). -/
def sumW (tp : TableParams) : ℚ := tp.colW.foldl (· + ·) 0

/-- colWidths[ci] || 100: the effective width of body cell ci. -/
def cellWidth (cw : List ℚ) (ci : Nat) : ℚ := jsNum cw[ci]? 100

/-- String(cell ?? ""): a missing cell prints as the empty string, a plain
object without a usable link stringifies the JavaScript way. -/
def cellTextOf : Option CellVal → String
  | none => ""
  | some (.str s) => s
  | some (.obj _ _ _) => "[object Object]"

/-- The header-cell loop of _renderTable (headers.forEach).  When
columnWidths is shorter than the header list the source computes NaN widths
(undefined minus a number); that degenerate corner is modelled with 0. -/
def renderHeaderCells (m : Measure) (tp : TableParams) (st : DocState)
    (y : ℚ) (x : ℚ) (i : Nat) : List String → DocState
  | [] => st
  | h :: hs =>
      let st := setFillColor (setFontSize (setFont st tp.headerFont) tp.fontSize) tp.headerColor
      let w := (tp.colW.getD i 0)
      let st := textAt m st h (x + tp.pad) (y + tp.pad)
        { width := some (w - tp.pad * 2), align := some "left" }
      renderHeaderCells m tp st y (x + w) (i + 1) hs

/-- One body cell of _renderTable: font setup, then either a text write
carrying the cell link in its options, or a plain text write. -/
def renderCell (m : Measure) (tp : TableParams) (st : DocState)
    (x y w : ℚ) (cell : Option CellVal) : DocState :=
  let st := setFillColor (setFontSize (setFont st tp.bodyFont) tp.fontSize) "#000000"
  match cell with
  | some (.obj txt lnk col) =>
      if strTruthy lnk then
        let st := setFillColor st (jsStr col "#1a0dab")
        let st := textAt m st (jsStr txt "") (x + tp.pad) (y + tp.pad)
          { width := some (w - tp.pad * 2), link := lnk, underline := true }
        setFillColor st "#000000"
      else
        textAt m st (cellTextOf cell) (x + tp.pad) (y + tp.pad)
          { width := some (w - tp.pad * 2) }
  | c =>
      textAt m st (cellTextOf c) (x + tp.pad) (y + tp.pad)
        { width := some (w - tp.pad * 2) }

/-- The cell loop within one body row (cells.forEach with running x). -/
def renderCells (m : Measure) (tp : TableParams) (st : DocState)
    (y : ℚ) (x : ℚ) (ci : Nat) : TableRow → DocState
  | [] => st
  | c :: cs =>
      let w := cellWidth tp.colW ci
      let st := renderCell m tp st x y w c
      renderCells m tp st y (x + w) (ci + 1) cs

/-- The body-row loop of _renderTable: before painting each row, check
whether the row's bottom edge would exceed the content-area bottom bound and
if so start a new page and reset the row cursor to the top margin; paint the
alternating background for odd absolute row indices; paint the cells; advance
the row cursor by one row height. -/
def renderRowsAux (m : Measure) (tp : TableParams) :
    List TableRow → Nat → DocState → ℚ → DocState × ℚ
  | [], _, st, y => (st, y)
  | row :: rest, ri, st, y =>
      let stp :=
        if pageBottom st.cfg < y + tp.rowHeight then (addPage st, st.cfg.mTop) else (st, y)
      let st := stp.1
      let y := stp.2
      let st :=
        if ri % 2 = 1 then fillRectOp st tp.startX y (sumW tp) tp.rowHeight tp.altBg else st
      let st := renderCells m tp st y tp.startX 0 row
      renderRowsAux m tp rest (ri + 1) st (y + tp.rowHeight)

/-- _renderTable.  The source's unused locals (totalRows, and the
approximate tableTop read) have no observable effect and are omitted. -/
def renderTable (m : Measure) (eng : Engine) (st : DocState) (t : TableAttrs) : DocState :=
  let tp := tableParams eng st t
  let y0 := st.y
  let hp :=
    if t.headers.isEmpty then (st, y0)
    else
      let stA := fillRectOp st tp.startX y0 (sumW tp) tp.rowHeight tp.headerBg
      let stB := renderHeaderCells m tp stA y0 tp.startX 0 t.headers
      (stB, y0 + tp.rowHeight)
  let bp := renderRowsAux m tp t.rows 0 hp.1 hp.2
  let st2 := bp.1
  let y2 := bp.2
  let st3 :=
    if tp.gridLines then
      strokeLineOp st2 tp.startX y2 (tp.startX + sumW tp) y2 tp.gridColor (1 / 2)
    else st2
  { st3 with x := tp.startX, y := y2 + 5 }

/-- _renderImage.  Explicit x and y place the image without moving the
cursor; flow placement advances the cursor by the image's rendered height
(collaborator oracle). -/
def renderImage (m : Measure) (st : DocState) (src : String) (ia : ImageAttrs) : DocState :=
  let st :=
    match ia.x, ia.y with
    | some px, some py => emit st (.placeImage st.page src px py ia.width ia.height)
    | _, _ =>
        let st := emit st (.placeImage st.page src st.x st.y ia.width ia.height)
        { st with y := st.y + m.imageHeight src ia.width ia.height }
  let st :=
    if strTruthy ia.link then
      let x := jsNum ia.x st.x
      let imgY := jsNum ia.y st.y
      let w := jsNum ia.width 100
      let h := jsNum ia.height 100
      linkOp st x (imgY - h) w h (ia.link.getD "")
    else st
  if numTruthy ia.moveDown then moveDownOp m st (ia.moveDown.getD 0) else st

/-- _renderDivider. -/
def renderDivider (st : DocState) (x w th sp : Option ℚ) (c : Option String) : DocState :=
  let dx := jsNum x st.cfg.mLeft
  let dw := jsNum w (contentWidth st.cfg)
  let y := st.y
  let st := strokeLineOp st dx y (dx + dw) y (jsStr c "#CCCCCC") (jsNum th 1)
  { st with y := y + jsNum sp 10 }

/-- _renderSpacer. -/
def renderSpacer (m : Measure) (st : DocState) (lines : Option ℚ) : DocState :=
  moveDownOp m st (jsNum lines 1)

/-- _renderRect. -/
def renderRect (st : DocState) (x y w h : ℚ) (fill stroke : Option String)
    (lw : Option ℚ) (lnk : Option String) : DocState :=
  let st := if strTruthy fill then fillRectOp st x y w h (fill.getD "") else st
  let st :=
    if strTruthy stroke then strokeRectOp st x y w h (stroke.getD "") (jsNum lw 1) else st
  if strTruthy lnk then linkOp st x y w h (lnk.getD "") else st

/-- The redacted-bar loop of _renderOverlay: k bars remain, i is the 1-based
bar index; each bar consumes one pseudo-random draw for its width. -/
def overlayBars (m : Measure) (st : DocState) (lineGap cw startY : ℚ)
    (lineColor : String) (i : Nat) : Nat → DocState
  | 0 => st
  | k + 1 =>
      let ly := startY + lineGap * i
      let lw := cw * (2 / 5 + m.rand st.rnd * (9 / 20))
      let st := fillRectOp st st.cfg.mLeft ly lw 8 lineColor
      let st := { st with rnd := st.rnd + 1 }
      overlayBars m st lineGap cw startY lineColor (i + 1) k

/-- _renderOverlay.  The overlay rectangle's opacity is a graphics-state
detail of the collaborator and is not part of the primitive trace. -/
def renderOverlay (m : Measure) (st : DocState) (o : OverlayAttrs) : DocState :=
  let cw := contentWidth st.cfg
  let overlayH := jsNum o.height 200
  let startY := st.y
  let n := o.lines.getD 6
  let lineColor := jsStr o.lineColor "#E0E0E0"
  let lineGap := overlayH / (n + 2)
  let st := overlayBars m st lineGap cw startY lineColor 1 n
  let st := fillRectOp st st.cfg.mLeft startY cw overlayH (jsStr o.color "#FFFFFF")
  let label := jsStr o.label "Click to View"
  let labelSize := jsNum o.labelSize 18
  let st := setFillColor (setFontSize (setFont st "Helvetica-Bold") labelSize)
    (jsStr o.labelColor "#1a0dab")
  let labelY := startY + overlayH / 2 - labelSize / 2
  let topts : TextOpts :=
    { width := some cw, align := some "center", underline := true
      link := if strTruthy o.url then o.url else none }
  let st := textAt m st label st.cfg.mLeft labelY topts
  let st :=
    if strTruthy o.url then linkOp st st.cfg.mLeft startY cw overlayH (o.url.getD "")
    else st
  let st := setFillColor st "#000000"
  { st with x := st.cfg.mLeft, y := startY + overlayH + 10 }

/-! The dispatcher and the recursive columns renderer. -/

mutual

/-- _renderElement: dispatch on the element kind; unknown kinds are a silent
no-op (forward-compatibility contract). -/
def renderElement (m : Measure) (eng : Engine) (st : DocState) (e : Element) : DocState :=
  match e with
  | .text a => renderText m eng st a
  | .heading lv a => renderHeading m eng st lv a
  | .link url stealth a =>
      if stealth then
        renderStealthLink m eng st url { a with color := some (jsStr a.color "#000000") }
      else
        renderPlainLink m eng st url a
  | .list items ordered indent a => renderListEl m eng st items ordered indent a
  | .table t => renderTable m eng st t
  | .image src ia => renderImage m st src ia
  | .divider x w th sp c => renderDivider st x w th sp c
  | .spacer lines => renderSpacer m st lines
  | .columns gap cols =>
      let g := jsNum gap 20
      let colWidth := (contentWidth st.cfg - g * ((cols.length : ℚ) - 1)) / (cols.length : ℚ)
      let startY := st.y
      let r := renderColsAux m eng g colWidth startY 0 st startY cols
      { r.1 with x := r.1.cfg.mLeft, y := r.2 }
  | .rect x y w h f s lw lnk => renderRect st x y w h f s lw lnk
  | .overlay o => renderOverlay m st o
  | .stealthLink url a => renderStealthLink m eng st url a
  | .pageBreak => addPage st
  | .unknown _ => st
termination_by esize e
decreasing_by all_goals simp [esize, csize, lsize] <;> omega

/-- The top-level element walk of _render. -/
def renderElems (m : Measure) (eng : Engine) (st : DocState) (es : List Element) : DocState :=
  match es with
  | [] => st
  | e :: rest => renderElems m eng (renderElement m eng st e) rest
termination_by lsize es
decreasing_by all_goals simp [lsize] <;> omega

/-- The per-column loop of _renderColumns: reset the cursor to the column's
horizontal offset and the shared starting y, render the patched children,
track the running maximum end y. -/
def renderColsAux (m : Measure) (eng : Engine) (g colWidth startY : ℚ) (i : Nat)
    (st : DocState) (maxY : ℚ) (cols : List (List Element)) : DocState × ℚ :=
  match cols with
  | [] => (st, maxY)
  | col :: rest =>
      let st1 := { st with x := st.cfg.mLeft + (i : ℚ) * (colWidth + g), y := startY }
      let st2 := renderPatched m eng colWidth st1 col
      let maxY2 := if maxY < st2.y then st2.y else maxY
      renderColsAux m eng g colWidth startY (i + 1) st2 maxY2 rest
termination_by csize cols
decreasing_by all_goals simp [csize] <;> omega

/-- The child walk inside one column, with the column width patched into each
child element ({ ...child, width: colWidth }). -/
def renderPatched (m : Measure) (eng : Engine) (w : ℚ) (st : DocState)
    (es : List Element) : DocState :=
  match es with
  | [] => st
  | e :: rest => renderPatched m eng w (renderElement m eng st (setWidth e w)) rest
termination_by lsize es
decreasing_by all_goals simp [lsize, esize_setWidth] <;> omega

end

/-! The render session: document creation, the top-level walk, and the
page-numbering pass. -/

/-- The document specification: elements plus optional page numbering and
optional page-geometry overrides (spec.size, spec.margins). -/
structure Spec where
  elements : List Element := []
  pageNumbers : Option PageNumCfg := none
  size : Option (ℚ × ℚ) := none
  margins : Option (ℚ × ℚ × ℚ × ℚ) := none

/-- _createDocument geometry: spec.size || engine size, spec.margins ||
engine margins. -/
def specCfg (eng : Engine) (sp : Spec) : PageCfg :=
  let wh := sp.size.getD (eng.pageWidth, eng.pageHeight)
  match sp.margins with
  | some (t, b, l, r) =>
      { width := wh.1, height := wh.2, mTop := t, mBottom := b, mLeft := l, mRight := r }
  | none =>
      { width := wh.1, height := wh.2, mTop := eng.mTop, mBottom := eng.mBottom
        mLeft := eng.mLeft, mRight := eng.mRight }

/-- The fresh document state: one buffered page, cursor at the top-left of
the content area, PDFKit's initial graphics state. -/
def initState (eng : Engine) (sp : Spec) : DocState :=
  let cfg := specCfg eng sp
  { cfg := cfg, page := 0, x := cfg.mLeft, y := cfg.mTop
    font := "Helvetica", fontSize := 12, fillColor := "#000000", rnd := 0, prims := [] }

/-- One footer stamp of _addPageNumbers: switchToPage(i), set the footer
font, write the footer string at a fixed offset below the bottom margin. -/
def stampPage (m : Measure) (eng : Engine) (o : PageNumCfg) (total i : Nat)
    (st : DocState) : DocState :=
  let st := { st with page := i }
  let st := setFillColor (setFontSize (setFont st eng.defaultFont) (jsNum o.fontSize 10))
    (jsStr o.color "#888888")
  textAt m st (jsStr o.pfx "Page " ++ toString (i + 1) ++ " of " ++ toString total)
    st.cfg.mLeft (st.cfg.height - st.cfg.mBottom + 15)
    { align := some (jsStr o.align "center"), width := some (contentWidth st.cfg) }

def stampLoop (m : Measure) (eng : Engine) (o : PageNumCfg) (total : Nat)
    (st : DocState) : List Nat → DocState
  | [] => st
  | i :: is => stampLoop m eng o total (stampPage m eng o total i st) is

/-- _addPageNumbers: the buffered page count is the current page index plus
one (pages are only appended); stamp every page in order. -/
def addPageNumbers (m : Measure) (eng : Engine) (o : PageNumCfg) (st : DocState) : DocState :=
  let total := st.page + 1
  stampLoop m eng o total st (List.range total)

/-- _render: walk the elements, then run the page-numbering pass when
requested. -/
def renderSpec (m : Measure) (eng : Engine) (sp : Spec) (st : DocState) : DocState :=
  let st := renderElems m eng st sp.elements
  match sp.pageNumbers with
  | some o => addPageNumbers m eng o st
  | none => st

/-- The whole generate pipeline up to the collaborator's finalize-to-bytes
step. -/
def generate (m : Measure) (eng : Engine) (sp : Spec) : DocState :=
  renderSpec m eng sp (initState eng sp)

/-! Observation functions over the primitive trace, and spec-side derived
descriptions used to state the claims. -/

def primPage : Prim → Nat
  | .placeText p _ _ _ _ => p
  | .fillRect p _ _ _ _ _ => p
  | .strokeRect p _ _ _ _ _ _ => p
  | .strokeLine p _ _ _ _ _ _ => p
  | .placeImage p _ _ _ _ _ => p
  | .linkAnnot p _ _ _ _ _ => p

def primText? : Prim → Option String
  | .placeText _ _ _ s _ => some s
  | _ => none

def primLink : Prim → Option String
  | .placeText _ _ _ _ o => o.link
  | _ => none

def primIsFillRect : Prim → Bool
  | .fillRect _ _ _ _ _ _ => true
  | _ => false

/-- The texts of the text-write primitives, in emission order. -/
def primTexts (l : List Prim) : List String := l.filterMap primText?

/-- The visible character stream: the concatenation of all written texts. -/
def visibleStream (l : List Prim) : String := String.join (primTexts l)

/-- The URLs registered in the annotation layer. -/
def annotUrls (l : List Prim) : List String :=
  l.filterMap fun pr =>
    match pr with
    | .linkAnnot _ _ _ _ _ u => some u
    | _ => none

/-- Substring occurrence over character lists. -/
def listHasSub (sub l : List Char) : Bool :=
  (List.range (l.length + 1)).any fun i => (l.drop i).take sub.length == sub

/-- Substring occurrence over strings. -/
def strHasSub (sub s : String) : Bool := listHasSub sub.data s.data

/-- The page index and row-cursor position at which each body row is painted:
the same check-and-reset recurrence the body-row loop performs, collected as
a list. -/
def rowPaints (tp : TableParams) (cfg : PageCfg) (page : Nat) (y : ℚ) :
    List TableRow → List (Nat × ℚ)
  | [] => []
  | _ :: rest =>
      if pageBottom cfg < y + tp.rowHeight then
        (page + 1, cfg.mTop) :: rowPaints tp cfg (page + 1) (cfg.mTop + tp.rowHeight) rest
      else
        (page, y) :: rowPaints tp cfg page (y + tp.rowHeight) rest

def cellLinky : Option CellVal → Bool
  | some (.obj _ lnk _) => strTruthy lnk
  | _ => false

def cellLinkTxt : Option CellVal → String
  | some (.obj txt _ _) => jsStr txt ""
  | _ => ""

def cellLinkUrl : Option CellVal → Option String
  | some (.obj _ lnk _) => lnk
  | _ => none

/-- The single text-write primitive a body cell produces. -/
def cellPrim (tp : TableParams) (page : Nat) (x y w : ℚ) (cell : Option CellVal) : Prim :=
  if cellLinky cell then
    .placeText page (x + tp.pad) (y + tp.pad) (cellLinkTxt cell)
      { width := some (w - tp.pad * 2), link := cellLinkUrl cell, underline := true }
  else
    .placeText page (x + tp.pad) (y + tp.pad) (cellTextOf cell)
      { width := some (w - tp.pad * 2) }

/-- The primitives of one row's cells, with the running horizontal offset. -/
def rowCellPrims (tp : TableParams) (page : Nat) (y x : ℚ) (ci : Nat) :
    TableRow → List Prim
  | [] => []
  | c :: cs =>
      cellPrim tp page x y (cellWidth tp.colW ci) c ::
        rowCellPrims tp page y (x + cellWidth tp.colW ci) (ci + 1) cs

/-- All drawing primitives of body row ri painted at (page, y): the
alternating background for odd absolute indices, then the cells. -/
def rowPrims (tp : TableParams) (page : Nat) (y : ℚ) (ri : Nat) (row : TableRow) :
    List Prim :=
  (if ri % 2 = 1 then
      [Prim.fillRect page tp.startX y (sumW tp) tp.rowHeight tp.altBg]
    else [])
    ++ rowCellPrims tp page y tp.startX 0 row

/-- The concatenated primitives of the body rows, each painted at its
rowPaints position, with absolute row indices from ri. -/
def paintsJoin (tp : TableParams) (ri : Nat) : List ((Nat × ℚ) × TableRow) → List Prim
  | [] => []
  | (pp, row) :: rest => rowPrims tp pp.1 pp.2 ri row ++ paintsJoin tp (ri + 1) rest

/-- The columns renderer as the specification words it: every column is laid
out from the same starting vertical position startY at its own horizontal
offset, children receive the column width, and the per-column end positions
are collected (to be reconverged by taking their maximum). -/
def columnsSpecRun (m : Measure) (eng : Engine) (colW g startY : ℚ)
    (st : DocState) (i : Nat) : List (List Element) → DocState × List ℚ
  | [] => (st, [])
  | col :: rest =>
      let stCol := renderPatched m eng colW
        { st with x := st.cfg.mLeft + (i : ℚ) * (colW + g), y := startY } col
      let r := columnsSpecRun m eng colW g startY stCol (i + 1) rest
      (r.1, stCol.y :: r.2)

/-! Concrete instances used by the witnesses. -/

/-- A deterministic collaborator for evaluating witnesses: every text write
consumes 12 points, a line is one font size, images are 100 points tall, the
random stream is constant one half. -/
def unitMeasure : Measure :=
  { textHeight := fun _ _ _ => 12
    lineHeight := fun fs => fs
    imageHeight := fun _ _ _ => 100
    rand := fun _ => 1 / 2 }

def defaultEngine : Engine := {}

def sampleState : DocState := initState defaultEngine {}

/-- The footer primitive stamped on page i by the page-numbering pass. -/
def footerPrim (eng : Engine) (o : PageNumCfg) (cfg : PageCfg) (total i : Nat) : Prim :=
  .placeText i cfg.mLeft (cfg.height - cfg.mBottom + 15)
    (jsStr o.pfx "Page " ++ toString (i + 1) ++ " of " ++ toString total)
    { align := some (jsStr o.align "center"), width := some (contentWidth cfg) }

/-- The specification-side columns pipeline at the engine's column width and
gap: the per-column width formula, the shared starting vertical position, and
the collected per-column end positions. -/
def columnsRun (m : Measure) (eng : Engine) (st : DocState) (gap : Option ℚ)
    (cols : List (List Element)) : DocState × List ℚ :=
  columnsSpecRun m eng
    ((contentWidth st.cfg - jsNum gap 20 * ((cols.length : ℚ) - 1)) / (cols.length : ℚ))
    (jsNum gap 20) st.y st 0 cols

/-! Shared structural lemmas. -/

theorem renderElems_append (m : Measure) (eng : Engine) (l1 l2 : List Element) :
    ∀ st, renderElems m eng st (l1 ++ l2) = renderElems m eng (renderElems m eng st l1) l2 := by
  induction l1 with
  | nil => intro st; simp [renderElems]
  | cons e rest ih => intro st; simp [renderElems, ih]

theorem stampPage_prims (m : Measure) (eng : Engine) (o : PageNumCfg) (total i : Nat)
    (st : DocState) :
    (stampPage m eng o total i st).prims = st.prims ++ [footerPrim eng o st.cfg total i]
      ∧ (stampPage m eng o total i st).cfg = st.cfg := by
  simp [stampPage, textAt, emit, setFont, setFontSize, setFillColor, footerPrim]

theorem stampLoop_prims (m : Measure) (eng : Engine) (o : PageNumCfg) (total : Nat) :
    ∀ is st, (stampLoop m eng o total st is).prims
        = st.prims ++ is.map (footerPrim eng o st.cfg total)
      ∧ (stampLoop m eng o total st is).cfg = st.cfg := by
  intro is
  induction is with
  | nil => intro st; simp [stampLoop]
  | cons i rest ih =>
      intro st
      have hp := stampPage_prims m eng o total i st
      have hr := ih (stampPage m eng o total i st)
      constructor
      · rw [stampLoop, hr.1, hp.1, hp.2]
        simp
      · rw [stampLoop, hr.2, hp.2]

theorem range_filter_length (n i : Nat) (h : i < n) :
    ((List.range n).filter (fun j => j == i)).length = 1 := by
  induction n with
  | zero => omega
  | succ n ih =>
      rw [List.range_succ, List.filter_append, List.length_append]
      rcases Nat.lt_or_ge i n with hlt | hge
      · have hn : ¬(n == i) = true := by simp; omega
        simp only [List.filter_cons, List.filter_nil, hn]
        simp [ih hlt]
      · have hi : i = n := by omega
        subst hi
        have : (List.range i).filter (fun j => j == i) = [] := by
          apply List.filter_eq_nil.mpr
          intro j hj
          have := List.mem_range.mp hj
          simp; omega
        simp [this]

/-! Claim C5: the page-numbering pass. -/

/-- C5: when page numbers are requested, the page-numbering pass appends, for
every page index i in [0, total), exactly one footer text primitive reading
prefix ++ (i+1) ++ " of " ++ total at the fixed offset 15 points below the
bottom margin (footerPrim); when page numbers are not requested, no footer is
stamped on any page. -/
theorem page_numbering_c5 (m : Measure) (eng : Engine) (st : DocState)
    (els : List Element) (o : PageNumCfg) (sz : Option (ℚ × ℚ))
    (mg : Option (ℚ × ℚ × ℚ × ℚ)) :
    ((renderSpec m eng { elements := els, pageNumbers := some o, size := sz, margins := mg } st).prims
      = (renderElems m eng st els).prims
        ++ (List.range ((renderElems m eng st els).page + 1)).map
            (footerPrim eng o (renderElems m eng st els).cfg
              ((renderElems m eng st els).page + 1)))
    ∧ (∀ i < (renderElems m eng st els).page + 1,
        (((List.range ((renderElems m eng st els).page + 1)).map
            (footerPrim eng o (renderElems m eng st els).cfg
              ((renderElems m eng st els).page + 1))).filter
          (fun pr => primPage pr == i)).length = 1)
    ∧ (renderSpec m eng { elements := els, pageNumbers := none, size := sz, margins := mg } st).prims
      = (renderElems m eng st els).prims := by
  refine ⟨?_, ?_, ?_⟩
  · simp only [renderSpec, addPageNumbers]
    exact (stampLoop_prims m eng o _ _ _).1
  · intro i hi
    rw [List.filter_map]
    have hcomp :
        ((fun pr => primPage pr == i) ∘
            footerPrim eng o (renderElems m eng st els).cfg
              ((renderElems m eng st els).page + 1))
          = fun j => j == i := by
      funext j
      simp [footerPrim, primPage]
    rw [hcomp, List.length_map]
    exact range_filter_length _ i hi
  · simp [renderSpec]

/-! Claim C6: unknown element kinds are silently skipped. -/

/-- C6: the dispatcher is a no-op on an element whose kind string is not
registered (it is total, so it cannot throw; it emits no primitive and
leaves the cursor state untouched), and a specification containing such an
element renders to exactly the same document state as the specification with
that element removed. -/
theorem unknown_kind_noop_c6 (m : Measure) (eng : Engine) (st : DocState)
    (pn : Option PageNumCfg) (sz : Option (ℚ × ℚ)) (mg : Option (ℚ × ℚ × ℚ × ℚ))
    (els1 els2 : List Element) (k : String) (hk : k ∉ registeredKinds) :
    renderElement m eng st (.unknown k) = st
    ∧ renderSpec m eng
        { elements := els1 ++ .unknown k :: els2, pageNumbers := pn, size := sz, margins := mg } st
      = renderSpec m eng
        { elements := els1 ++ els2, pageNumbers := pn, size := sz, margins := mg } st := by
  have hnoop : ∀ st' : DocState, renderElement m eng st' (.unknown k) = st' := by
    intro st'
    simp [renderElement]
  refine ⟨hnoop st, ?_⟩
  have helems : renderElems m eng st (els1 ++ .unknown k :: els2)
      = renderElems m eng st (els1 ++ els2) := by
    rw [renderElems_append, renderElems_append]
    conv_lhs => rw [renderElems]
    rw [hnoop]
  simp only [renderSpec, helems]

/-- Closed instance of C6: inserting an element of the unregistered kind
"watermark" into a small specification changes nothing. -/
theorem unknown_kind_noop_c6_witness :
    ("watermark" ∉ registeredKinds)
    ∧ renderSpec unitMeasure defaultEngine
        { elements := [.spacer none, .unknown "watermark", .pageBreak] } sampleState
      = renderSpec unitMeasure defaultEngine
        { elements := [.spacer none, .pageBreak] } sampleState := by
  refine ⟨by decide, ?_⟩
  exact (unknown_kind_noop_c6 unitMeasure defaultEngine sampleState none none none
    [.spacer none] [.pageBreak] "watermark" (by decide)).2

/-! Claim C1: stealth-link decoupling. -/

/-- C1: a stealth link with a (truthy) URL writes its display text as a
single link-free text primitive, then registers exactly one clickable-region
annotation bound to the URL whose box starts at the pre-write cursor and
whose height is the before/after cursor delta (the height the text write
consumed); consequently, whenever the display text itself does not contain
the URL, the visible character stream of the emitted primitives does not
contain the URL, while the annotation layer does carry it. -/
theorem stealth_link_decoupling_c1 (m : Measure) (eng : Engine) (st : DocState)
    (a : TextAttrs) (u : String) (hne : u ≠ "") :
    ((renderStealthLink m eng st (some u) a).prims
      = st.prims ++
        [Prim.placeText st.page st.x st.y (a.value.getD "")
            { align := optStr a.align, width := optNum a.width, underline := a.underline },
          Prim.linkAnnot st.page st.x st.y
            (jsNum a.width (contentWidth st.cfg))
            (m.textHeight (jsNum a.fontSize eng.defaultFontSize) (a.value.getD "")
              { align := optStr a.align, width := optNum a.width, underline := a.underline })
            u])
    ∧ TextOpts.link
        { align := optStr a.align, width := optNum a.width, underline := a.underline } = none
    ∧ (strHasSub u (a.value.getD "") = false →
        strHasSub u (visibleStream
          ((renderStealthLink m eng st (some u) a).prims.drop st.prims.length)) = false)
    ∧ u ∈ annotUrls ((renderStealthLink m eng st (some u) a).prims.drop st.prims.length) := by
  have htr : strTruthy (some u) = true := by simp [strTruthy, hne]
  have hprims : (renderStealthLink m eng st (some u) a).prims
      = st.prims ++
        [Prim.placeText st.page st.x st.y (a.value.getD "")
            { align := optStr a.align, width := optNum a.width, underline := a.underline },
          Prim.linkAnnot st.page st.x st.y
            (jsNum a.width (contentWidth st.cfg))
            (m.textHeight (jsNum a.fontSize eng.defaultFontSize) (a.value.getD "")
              { align := optStr a.align, width := optNum a.width, underline := a.underline })
            u] := by
    simp only [renderStealthLink, htr, if_true]
    rcases hmv : numTruthy a.moveDown with hf | ht <;>
      simp [moveDownOp, linkOp, textFlow, emit, setFont, setFontSize, setFillColor]
  have hdrop : (renderStealthLink m eng st (some u) a).prims.drop st.prims.length
      = [Prim.placeText st.page st.x st.y (a.value.getD "")
            { align := optStr a.align, width := optNum a.width, underline := a.underline },
          Prim.linkAnnot st.page st.x st.y
            (jsNum a.width (contentWidth st.cfg))
            (m.textHeight (jsNum a.fontSize eng.defaultFontSize) (a.value.getD "")
              { align := optStr a.align, width := optNum a.width, underline := a.underline })
            u] := by
    rw [hprims, List.drop_left]
  refine ⟨hprims, rfl, ?_, ?_⟩
  · intro hnotin
    rw [hdrop]
    simpa [visibleStream, primTexts, primText?, String.join] using hnotin
  · rw [hdrop]
    simp [annotUrls]

/-- Closed instance of C1 at the specification's own example URL. -/
theorem stealth_link_decoupling_c1_witness :
    ("https://example.com/secret" : String) ≠ ""
    ∧ "https://example.com/secret" ∈ annotUrls
        ((renderStealthLink unitMeasure defaultEngine sampleState
            (some "https://example.com/secret")
            { value := some "View Document" }).prims.drop sampleState.prims.length) := by
  refine ⟨by decide, ?_⟩
  exact (stealth_link_decoupling_c1 unitMeasure defaultEngine sampleState
    { value := some "View Document" } "https://example.com/secret" (by decide)).2.2.2

/-! Claim C9: plain links expose their URL as the visible text. -/

/-- C9 counterexample: a non-stealth link whose display value is present but
empty (value = some "") writes the URL, not the value, as its visible text —
the JavaScript idiom el.value || el.url falls through on the falsy empty
string.  So "the visible text equals el.value when present" fails at this
input. -/
theorem plain_link_value_c9_counterexample :
    primTexts (renderElement unitMeasure defaultEngine sampleState
        (.link (some "https://u.example/x") false { value := some "" })).prims
      = ["https://u.example/x"]
    ∧ ("https://u.example/x" : String) ≠ "" := by
  refine ⟨?_, by decide⟩
  norm_num +decide [renderElement, renderPlainLink, textOptionsOf, textFlow, emit,
    setFont, setFontSize, setFillColor, jsNum, jsStr, strTruthy, numTruthy, optStr,
    optNum, sampleState, initState, specCfg, defaultEngine, unitMeasure, primTexts,
    primText?, moveDownOp]

/-- C9 amended: for a non-stealth link with a URL, the renderer emits one
text primitive whose visible text is el.value when that value is present and
non-empty, and el.url otherwise (in particular, when the display value is
absent the URL itself is the visible text), with the URL also attached as the
link option of that same write. -/
theorem plain_link_value_c9_amended (m : Measure) (eng : Engine) (st : DocState)
    (a : TextAttrs) (u : String) :
    ((renderElement m eng st (.link (some u) false a)).prims
      = st.prims ++
        [Prim.placeText st.page st.x st.y (jsStr a.value u)
          { textOptionsOf a with link := some u, underline := true }])
    ∧ (a.value = none → jsStr a.value u = u) := by
  constructor
  · rw [renderElement]
    simp only [Bool.false_eq_true, if_false, renderPlainLink]
    rcases hmv : numTruthy a.moveDown <;>
      simp [moveDownOp, textFlow, emit, setFont, setFontSize, setFillColor, jsStr]
  · intro hv
    simp [hv, jsStr]

/-! Claim C7: table body cells carrying a link. -/

/-- C7 counterexample: a table with one linked body cell registers no
clickable-region annotation at all — the annotation layer of the emitted
trace is empty; the link instead travels inside the options of the cell's
own text write.  This refutes the claim that the renderer registers a
separate clickable region over the cell's full padded box. -/
theorem table_cell_link_c7_counterexample :
    annotUrls (renderTable unitMeasure defaultEngine sampleState
        { headers := ["H"]
          rows := [[some (.obj (some "Visit") (some "https://cell.example/l") none)]]
          columnWidths := some [200] }).prims = []
    ∧ ((renderTable unitMeasure defaultEngine sampleState
        { headers := ["H"]
          rows := [[some (.obj (some "Visit") (some "https://cell.example/l") none)]]
          columnWidths := some [200] }).prims.any
        (fun pr => primLink pr == some "https://cell.example/l")) = true := by
  constructor <;>
    norm_num +decide [renderTable, tableParams, sumW, autoColumnWidths, renderHeaderCells,
      renderRowsAux, renderCells, renderCell, textAt, emit, fillRectOp, strokeLineOp,
      setFont, setFontSize, setFillColor, jsNum, jsStr, strTruthy, cellWidth, cellTextOf,
      pageBottom, contentWidth, sampleState, initState, specCfg, defaultEngine,
      unitMeasure, annotUrls, addPage, linkOp, primLink]

/-- C7 amended: a body cell carrying a truthy link is rendered as a single
text write whose options carry the link and underline, positioned at the
cell's padded origin (x + padding, y + padding) with width equal to the
column width minus twice the padding; no separate clickable-region
annotation is registered anywhere in the table body (the row primitives
contain no annotation at all). -/
theorem table_cell_link_c7_amended (m : Measure) (tp : TableParams) (st : DocState)
    (x y w : ℚ) (txt col lnk : Option String) (hl : strTruthy lnk = true) :
    (cellPrim tp st.page x y w (some (.obj txt lnk col))
      = Prim.placeText st.page (x + tp.pad) (y + tp.pad) (jsStr txt "")
          { width := some (w - tp.pad * 2), link := lnk, underline := true })
    ∧ ((renderCell m tp st x y w (some (.obj txt lnk col))).prims
        = st.prims ++ [cellPrim tp st.page x y w (some (.obj txt lnk col))])
    ∧ (∀ p py k row, annotUrls (rowPrims tp p py k row) = []) := by
  refine ⟨?_, ?_, ?_⟩
  · simp [cellPrim, cellLinky, cellLinkTxt, cellLinkUrl, hl]
  · simp [renderCell, cellPrim, cellLinky, cellLinkTxt, cellLinkUrl, hl, textAt, emit,
      setFont, setFontSize, setFillColor]
  · intro p py k row
    have hcells : ∀ (cs : TableRow) (cx : ℚ) (ci : Nat),
        annotUrls (rowCellPrims tp p py cx ci cs) = [] := by
      intro cs
      induction cs with
      | nil => intro cx ci; simp [rowCellPrims, annotUrls]
      | cons c rest ih =>
          intro cx ci
          rw [rowCellPrims]
          by_cases hck : cellLinky c = true <;>
            · simp only [annotUrls, List.filterMap_cons, cellPrim, hck, if_true, if_false,
                Bool.false_eq_true]
              simpa [annotUrls] using ih (cx + cellWidth tp.colW ci) (ci + 1)
    have h2 := hcells row tp.startX 0
    simp only [annotUrls] at h2
    rw [rowPrims]
    simp only [annotUrls, List.filterMap_append, h2, List.append_nil]
    rcases hri : k % 2 with _ | _ <;> simp

/-- Closed instance of the amended C7 at a concrete linked cell. -/
theorem table_cell_link_c7_amended_witness :
    strTruthy (some "https://cell.example/l") = true
    ∧ cellPrim (tableParams defaultEngine sampleState { columnWidths := some [200] })
        sampleState.page 0 0 200
        (some (.obj (some "Visit") (some "https://cell.example/l") none))
      = Prim.placeText sampleState.page
          (0 + (tableParams defaultEngine sampleState { columnWidths := some [200] }).pad)
          (0 + (tableParams defaultEngine sampleState { columnWidths := some [200] }).pad)
          (jsStr (some "Visit") "")
          { width := some
              (200 - (tableParams defaultEngine sampleState { columnWidths := some [200] }).pad * 2)
            link := some "https://cell.example/l", underline := true } := by
  refine ⟨by decide, ?_⟩
  exact (table_cell_link_c7_amended unitMeasure
    (tableParams defaultEngine sampleState { columnWidths := some [200] }) sampleState
    0 0 200 (some "Visit") none (some "https://cell.example/l") (by decide)).1

/-! Claim C8: missing cells and missing attributes never crash; defaults are
substituted. -/

/-- C8: a body cell whose value is missing renders as a single text write of
the empty string (the renderer is a total function, so no input can make it
throw), and a table element with every optional attribute absent resolves to
exactly the documented defaults (body font size 10, padding 5, row height
fontSize + 2 padding + 4 = 24, the documented header and alternating-row
colours, grid lines on). -/
theorem table_missing_cell_default_c8 (m : Measure) (eng : Engine) (tp : TableParams)
    (st : DocState) (x y w : ℚ) :
    (cellPrim tp st.page x y w none
      = Prim.placeText st.page (x + tp.pad) (y + tp.pad) "" { width := some (w - tp.pad * 2) })
    ∧ ((renderCell m tp st x y w none).prims = st.prims ++ [cellPrim tp st.page x y w none])
    ∧ (∀ (rs : List TableRow) (hs : List String),
        tableParams eng st { rows := rs, headers := hs }
          = { startX := st.x, colW := autoColumnWidths st.cfg hs.length
              headerFont := "Helvetica-Bold", bodyFont := eng.defaultFont, fontSize := 10
              headerBg := "#4472C4", headerColor := "#FFFFFF", altBg := "#F2F2F2"
              pad := 5, rowHeight := 24, gridLines := true, gridColor := "#CCCCCC" }) := by
  refine ⟨?_, ?_, ?_⟩
  · simp [cellPrim, cellLinky, cellTextOf]
  · simp [renderCell, cellPrim, cellLinky, cellTextOf, textAt, emit, setFont,
      setFontSize, setFillColor]
  · intro rs hs
    simp [tableParams, jsNum, jsStr]
    norm_num

/-! Claim C10: auto-computed column widths follow the header count. -/

/-- C10: with no explicit columnWidths, the width list has exactly one entry
per header label, each equal to the content width divided by the header
count; with an empty header row the width list is empty and every body cell
falls back to the fixed width 100. -/
theorem table_auto_widths_c10 (eng : Engine) (st : DocState) (t : TableAttrs)
    (hcw : t.columnWidths = none) :
    ((tableParams eng st t).colW.length = t.headers.length)
    ∧ (∀ w ∈ (tableParams eng st t).colW,
        w = contentWidth st.cfg / (t.headers.length : ℚ))
    ∧ (t.headers = [] →
        (tableParams eng st t).colW = []
          ∧ ∀ ci, cellWidth (tableParams eng st t).colW ci = 100) := by
  have hcolW : (tableParams eng st t).colW = autoColumnWidths st.cfg t.headers.length := by
    simp [tableParams, hcw]
  refine ⟨?_, ?_, ?_⟩
  · rw [hcolW, autoColumnWidths]
    by_cases h0 : t.headers.length = 0 <;> simp [h0]
  · intro w hw
    rw [hcolW, autoColumnWidths] at hw
    by_cases h0 : t.headers.length = 0 <;> simp [h0] at hw
    · exact hw
  · intro hemp
    have : (tableParams eng st t).colW = [] := by
      rw [hcolW, hemp]
      simp [autoColumnWidths]
    refine ⟨this, ?_⟩
    intro ci
    rw [this]
    simp [cellWidth, jsNum]

/-- Closed instance of C10: two headers and no columnWidths give two equal
widths; no headers give the 100-point fallback for the first body cell. -/
theorem table_auto_widths_c10_witness :
    (({ headers := ["A", "B"] } : TableAttrs).columnWidths = none)
    ∧ (tableParams defaultEngine sampleState { headers := ["A", "B"] }).colW.length
        = ({ headers := ["A", "B"] } : TableAttrs).headers.length := by
  refine ⟨rfl, ?_⟩
  exact (table_auto_widths_c10 defaultEngine sampleState { headers := ["A", "B"] } rfl).1

/-! Claim C4: the columns renderer. -/

theorem renderColsAux_spec (m : Measure) (eng : Engine) (g colW startY : ℚ) :
    ∀ (cols : List (List Element)) (i : Nat) (st : DocState) (maxY : ℚ),
      renderColsAux m eng g colW startY i st maxY cols
        = ((columnsSpecRun m eng colW g startY st i cols).1,
            (columnsSpecRun m eng colW g startY st i cols).2.foldl max maxY) := by
  intro cols
  induction cols with
  | nil => intro i st maxY; simp [renderColsAux, columnsSpecRun]
  | cons col rest ih =>
      intro i st maxY
      rw [renderColsAux, columnsSpecRun]
      simp only []
      rw [ih]
      have hmax : ∀ (a b : ℚ), (if a < b then b else a) = max a b := by
        intro a b
        rcases lt_or_ge a b with h | h
        · simp [h, max_eq_right (le_of_lt h)]
        · simp [not_lt_of_ge h, max_eq_left h]
      rw [hmax]
      rfl

theorem columnsSpecRun_length (m : Measure) (eng : Engine) (colW g startY : ℚ) :
    ∀ (cols : List (List Element)) (st : DocState) (i : Nat),
      (columnsSpecRun m eng colW g startY st i cols).2.length = cols.length := by
  intro cols
  induction cols with
  | nil => intro st i; simp [columnsSpecRun]
  | cons col rest ih => intro st i; simp [columnsSpecRun, ih]

/-- C4: rendering a columns element with n >= 1 columns equals the
specification-side pipeline columnsRun, in which every column's children are
rendered from the same starting vertical position st.y at the column's own
horizontal offset with the width (content width - gap (n - 1)) / n patched
in, and afterwards the cursor sits at the left margin with vertical position
equal to the maximum of the starting position and every column's end
position (not their sum, and not the last column's end). -/
theorem columns_reconvergence_c4 (m : Measure) (eng : Engine) (st : DocState)
    (gap : Option ℚ) (cols : List (List Element)) (hne : cols ≠ []) :
    (renderElement m eng st (.columns gap cols)
      = { (columnsRun m eng st gap cols).1 with
          x := (columnsRun m eng st gap cols).1.cfg.mLeft
          y := (columnsRun m eng st gap cols).2.foldl max st.y })
    ∧ (columnsRun m eng st gap cols).2.length = cols.length := by
  constructor
  · rw [renderElement]
    simp only [columnsRun]
    rw [renderColsAux_spec]
  · simp [columnsRun, columnsSpecRun_length]

/-- Closed instance of C4 with two one-element columns. -/
theorem columns_reconvergence_c4_witness :
    (([[Element.spacer none], [Element.spacer (some 3)]] : List (List Element)) ≠ [])
    ∧ (columnsRun unitMeasure defaultEngine sampleState none
        [[Element.spacer none], [Element.spacer (some 3)]]).2.length
      = ([[Element.spacer none], [Element.spacer (some 3)]] : List (List Element)).length := by
  constructor
  · intro h; cases h
  · exact (columns_reconvergence_c4 unitMeasure defaultEngine sampleState none
      [[Element.spacer none], [Element.spacer (some 3)]] (by intro h; cases h)).2

/-! Claims C2 and C3: the table body-row loop. -/

theorem renderCell_spec (m : Measure) (tp : TableParams) (st : DocState)
    (x y w : ℚ) (cell : Option CellVal) :
    (renderCell m tp st x y w cell).prims = st.prims ++ [cellPrim tp st.page x y w cell]
      ∧ (renderCell m tp st x y w cell).page = st.page
      ∧ (renderCell m tp st x y w cell).cfg = st.cfg := by
  rcases cell with _ | cv
  · simp [renderCell, cellPrim, cellLinky, cellTextOf, textAt, emit, setFont,
      setFontSize, setFillColor]
  · rcases cv with s | ⟨txt, lnk, col⟩
    · simp [renderCell, cellPrim, cellLinky, cellTextOf, textAt, emit, setFont,
        setFontSize, setFillColor]
    · by_cases hl : strTruthy lnk = true <;>
        simp [renderCell, cellPrim, cellLinky, cellLinkTxt, cellLinkUrl, cellTextOf, hl,
          textAt, emit, setFont, setFontSize, setFillColor]

theorem renderCells_spec (m : Measure) (tp : TableParams) (y : ℚ) :
    ∀ (cells : TableRow) (st : DocState) (x : ℚ) (ci : Nat),
      (renderCells m tp st y x ci cells).prims
          = st.prims ++ rowCellPrims tp st.page y x ci cells
        ∧ (renderCells m tp st y x ci cells).page = st.page
        ∧ (renderCells m tp st y x ci cells).cfg = st.cfg := by
  intro cells
  induction cells with
  | nil => intro st x ci; simp [renderCells, rowCellPrims]
  | cons c rest ih =>
      intro st x ci
      rw [renderCells, rowCellPrims]
      have hc := renderCell_spec m tp st x y (cellWidth tp.colW ci) c
      have hr := ih (renderCell m tp st x y (cellWidth tp.colW ci) c)
        (x + cellWidth tp.colW ci) (ci + 1)
      refine ⟨?_, ?_, ?_⟩
      · rw [hr.1, hc.1, hc.2.1]
        simp
      · rw [hr.2.1, hc.2.1]
      · rw [hr.2.2, hc.2.2]

theorem rowPrims_page (tp : TableParams) (p : Nat) (py : ℚ) (ri : Nat) (row : TableRow) :
    ∀ pr ∈ rowPrims tp p py ri row, primPage pr = p := by
  have hcells : ∀ (cs : TableRow) (x : ℚ) (ci : Nat),
      ∀ pr ∈ rowCellPrims tp p py x ci cs, primPage pr = p := by
    intro cs
    induction cs with
    | nil => intro x ci pr hpr; simp [rowCellPrims] at hpr
    | cons c rest ih =>
        intro x ci pr hpr
        rw [rowCellPrims] at hpr
        rcases List.mem_cons.mp hpr with h | h
        · subst h
          by_cases hl : cellLinky c = true <;> simp [cellPrim, hl, primPage]
        · exact ih _ _ pr h
  intro pr hpr
  rw [rowPrims] at hpr
  rcases List.mem_append.mp hpr with h | h
  · by_cases hodd : ri % 2 = 1
    · rw [if_pos hodd] at h
      simp at h
      subst h
      simp [primPage]
    · rw [if_neg hodd] at h
      simp at h
  · exact hcells row tp.startX 0 pr h

theorem rowPaints_length (tp : TableParams) (cfg : PageCfg) :
    ∀ (rows : List TableRow) (page : Nat) (y : ℚ),
      (rowPaints tp cfg page y rows).length = rows.length := by
  intro rows
  induction rows with
  | nil => intro page y; simp [rowPaints]
  | cons r rest ih =>
      intro page y
      rw [rowPaints]
      by_cases hb : pageBottom cfg < y + tp.rowHeight <;> simp [hb, ih]

theorem rowPaints_head (tp : TableParams) (cfg : PageCfg) (page : Nat) (y : ℚ)
    (r : TableRow) (rest : List TableRow) :
    (rowPaints tp cfg page y (r :: rest)).getD 0 (0, 0)
      = if pageBottom cfg < y + tp.rowHeight then (page + 1, cfg.mTop) else (page, y) := by
  rw [rowPaints]
  by_cases hb : pageBottom cfg < y + tp.rowHeight <;> simp [hb]

theorem rowPaints_succ (tp : TableParams) (cfg : PageCfg) :
    ∀ (rows : List TableRow) (page : Nat) (y : ℚ) (j : Nat),
      j + 1 < (rowPaints tp cfg page y rows).length →
      (rowPaints tp cfg page y rows).getD (j + 1) (0, 0)
        = if pageBottom cfg
              < ((rowPaints tp cfg page y rows).getD j (0, 0)).2
                + tp.rowHeight + tp.rowHeight
          then (((rowPaints tp cfg page y rows).getD j (0, 0)).1 + 1, cfg.mTop)
          else (((rowPaints tp cfg page y rows).getD j (0, 0)).1,
            ((rowPaints tp cfg page y rows).getD j (0, 0)).2 + tp.rowHeight) := by
  intro rows
  induction rows with
  | nil => intro page y j hj; simp [rowPaints] at hj
  | cons r rest ih =>
      intro page y j hj
      rcases j with _ | j
      · rcases rest with _ | ⟨r2, rest2⟩
        · rw [rowPaints_length] at hj
          simp at hj
        · rw [rowPaints]
          by_cases hb : pageBottom cfg < y + tp.rowHeight <;>
            · simp only [hb, if_true, if_false, List.getD_cons_succ, List.getD_cons_zero]
              rw [rowPaints_head]
      · rw [rowPaints]
        by_cases hb : pageBottom cfg < y + tp.rowHeight <;>
          · simp only [hb, if_true, if_false, List.getD_cons_succ]
            apply ih
            rw [rowPaints] at hj
            simp only [hb, if_true, if_false, List.length_cons] at hj
            omega

theorem rowPaints_fits (tp : TableParams) (cfg : PageCfg)
    (hfit : tp.rowHeight ≤ pageBottom cfg - cfg.mTop) :
    ∀ (rows : List TableRow) (page : Nat) (y : ℚ) (j : Nat),
      j < (rowPaints tp cfg page y rows).length →
      ((rowPaints tp cfg page y rows).getD j (0, 0)).2 + tp.rowHeight ≤ pageBottom cfg := by
  intro rows
  induction rows with
  | nil => intro page y j hj; simp [rowPaints] at hj
  | cons r rest ih =>
      intro page y j hj
      rcases j with _ | j
      · rw [rowPaints]
        by_cases hb : pageBottom cfg < y + tp.rowHeight
        · simp only [hb, if_true, List.getD_cons_zero]
          linarith
        · simp only [hb, if_false, List.getD_cons_zero]
          linarith [not_lt.mp hb]
      · rw [rowPaints]
        by_cases hb : pageBottom cfg < y + tp.rowHeight <;>
          · simp only [hb, if_true, if_false, List.getD_cons_succ]
            apply ih
            rw [rowPaints] at hj
            simp only [hb, if_true, if_false, List.length_cons] at hj
            omega

theorem renderRowsAux_spec (m : Measure) (tp : TableParams) :
    ∀ (rows : List TableRow) (ri : Nat) (st : DocState) (y : ℚ),
      (renderRowsAux m tp rows ri st y).1.prims
        = st.prims ++ paintsJoin tp ri ((rowPaints tp st.cfg st.page y rows).zip rows) := by
  intro rows
  induction rows with
  | nil => intro ri st y; simp [renderRowsAux, rowPaints, paintsJoin]
  | cons row rest ih =>
      intro ri st y
      rw [renderRowsAux, rowPaints]
      by_cases hb : pageBottom st.cfg < y + tp.rowHeight
      · simp only [hb, if_true, List.zip_cons_cons, paintsJoin]
        set stB := if ri % 2 = 1 then
            fillRectOp (addPage st) tp.startX st.cfg.mTop (sumW tp) tp.rowHeight tp.altBg
          else addPage st with hstB
        have hBpage : stB.page = st.page + 1 ∧ stB.cfg = st.cfg
            ∧ stB.prims = st.prims ++ (if ri % 2 = 1 then
                [Prim.fillRect (st.page + 1) tp.startX st.cfg.mTop (sumW tp) tp.rowHeight tp.altBg]
              else []) := by
          by_cases hodd : ri % 2 = 1 <;>
            simp [hstB, hodd, fillRectOp, emit, addPage]
        have hc := renderCells_spec m tp st.cfg.mTop row stB tp.startX 0
        have hrec := ih (ri + 1) (renderCells m tp stB st.cfg.mTop tp.startX 0 row)
          (st.cfg.mTop + tp.rowHeight)
        rw [hrec, hc.1, hc.2.1, hc.2.2, hBpage.1, hBpage.2.1, hBpage.2.2]
        rw [rowPrims]
        simp [List.append_assoc]
      · simp only [hb, if_false, List.zip_cons_cons, paintsJoin]
        set stB := if ri % 2 = 1 then
            fillRectOp st tp.startX y (sumW tp) tp.rowHeight tp.altBg
          else st with hstB
        have hBpage : stB.page = st.page ∧ stB.cfg = st.cfg
            ∧ stB.prims = st.prims ++ (if ri % 2 = 1 then
                [Prim.fillRect st.page tp.startX y (sumW tp) tp.rowHeight tp.altBg]
              else []) := by
          by_cases hodd : ri % 2 = 1 <;>
            simp [hstB, hodd, fillRectOp, emit]
        have hc := renderCells_spec m tp y row stB tp.startX 0
        have hrec := ih (ri + 1) (renderCells m tp stB y tp.startX 0 row)
          (y + tp.rowHeight)
        rw [hrec, hc.1, hc.2.1, hc.2.2, hBpage.1, hBpage.2.1, hBpage.2.2]
        rw [rowPrims]
        simp [List.append_assoc]

/-- C2: the body-row loop paints exactly the primitives described by the
per-row paint positions rowPaints: (1) the emitted trace is the
concatenation of one single-page chunk per row at its paint position, (2)
there is one paint position per row, (3) all primitives of one row carry one
page index — no row's drawing primitives span two pages, (4) the first row
is painted at the incoming cursor if its bottom edge fits the content-area
bottom bound and otherwise on a fresh page at the top margin, (5) each later
row is painted one row height below the previous one unless that bottom edge
would exceed the bound, in which case it is painted on the next page at the
top margin, and (6) whenever one row height fits the content area at all,
every painted row's bottom edge stays within the bound. -/
theorem table_row_page_break_c2 (m : Measure) (tp : TableParams) (rows : List TableRow)
    (ri : Nat) (st : DocState) (y : ℚ) (hne : rows ≠ []) :
    ((renderRowsAux m tp rows ri st y).1.prims
        = st.prims ++ paintsJoin tp ri ((rowPaints tp st.cfg st.page y rows).zip rows))
    ∧ (rowPaints tp st.cfg st.page y rows).length = rows.length
    ∧ (∀ (p : Nat) (py : ℚ) (k : Nat) (row : TableRow),
        ∀ pr ∈ rowPrims tp p py k row, primPage pr = p)
    ∧ ((rowPaints tp st.cfg st.page y rows).getD 0 (0, 0)
        = if pageBottom st.cfg < y + tp.rowHeight then (st.page + 1, st.cfg.mTop)
          else (st.page, y))
    ∧ (∀ j, j + 1 < (rowPaints tp st.cfg st.page y rows).length →
        (rowPaints tp st.cfg st.page y rows).getD (j + 1) (0, 0)
          = if pageBottom st.cfg
                < ((rowPaints tp st.cfg st.page y rows).getD j (0, 0)).2
                  + tp.rowHeight + tp.rowHeight
            then (((rowPaints tp st.cfg st.page y rows).getD j (0, 0)).1 + 1, st.cfg.mTop)
            else (((rowPaints tp st.cfg st.page y rows).getD j (0, 0)).1,
              ((rowPaints tp st.cfg st.page y rows).getD j (0, 0)).2 + tp.rowHeight))
    ∧ (tp.rowHeight ≤ pageBottom st.cfg - st.cfg.mTop →
        ∀ j < (rowPaints tp st.cfg st.page y rows).length,
          ((rowPaints tp st.cfg st.page y rows).getD j (0, 0)).2 + tp.rowHeight
            ≤ pageBottom st.cfg) := by
  obtain ⟨r, rest, rfl⟩ := List.exists_cons_of_ne_nil hne
  exact ⟨renderRowsAux_spec m tp _ ri st y,
    rowPaints_length tp st.cfg _ st.page y,
    fun p py k row => rowPrims_page tp p py k row,
    rowPaints_head tp st.cfg st.page y r rest,
    fun j hj => rowPaints_succ tp st.cfg _ st.page y j hj,
    fun hfit j hj => rowPaints_fits tp st.cfg hfit _ st.page y j hj⟩

/-- Closed instance of C2 with one row. -/
theorem table_row_page_break_c2_witness :
    (([[some (CellVal.str "a")]] : List TableRow) ≠ [])
    ∧ (rowPaints (tableParams defaultEngine sampleState {}) sampleState.cfg sampleState.page
        sampleState.y [[some (CellVal.str "a")]]).length
      = ([[some (CellVal.str "a")]] : List TableRow).length := by
  refine ⟨by simp, ?_⟩
  exact (table_row_page_break_c2 unitMeasure (tableParams defaultEngine sampleState {})
    [[some (CellVal.str "a")]] 0 sampleState sampleState.y (by simp)).2.1

theorem zip_getD {α β : Type} (d1 : α) (d2 : β) :
    ∀ (l1 : List α) (l2 : List β) (k : Nat), k < l1.length → k < l2.length →
      (l1.zip l2).getD k (d1, d2) = (l1.getD k d1, l2.getD k d2) := by
  intro l1
  induction l1 with
  | nil => intro l2 k h1 h2; simp at h1
  | cons a rest ih =>
      intro l2 k h1 h2
      rcases l2 with _ | ⟨b, l2r⟩
      · simp at h2
      · rcases k with _ | k
        · simp
        · simp only [List.zip_cons_cons, List.getD_cons_succ]
          exact ih l2r k (by simpa using h1) (by simpa using h2)

theorem paintsJoin_decomp (tp : TableParams) :
    ∀ (pairs : List ((Nat × ℚ) × TableRow)) (ri k : Nat), k < pairs.length →
      ∃ pre post, paintsJoin tp ri pairs
        = pre ++ rowPrims tp (pairs.getD k ((0, 0), [])).1.1 (pairs.getD k ((0, 0), [])).1.2
            (ri + k) (pairs.getD k ((0, 0), [])).2 ++ post := by
  intro pairs
  induction pairs with
  | nil => intro ri k hk; simp at hk
  | cons pr rest ih =>
      intro ri k hk
      rcases k with _ | k
      · refine ⟨[], paintsJoin tp (ri + 1) rest, ?_⟩
        rw [paintsJoin]
        simp
      · obtain ⟨pre, post, hp⟩ := ih (ri + 1) k (by simpa using hk)
        refine ⟨rowPrims tp pr.1.1 pr.1.2 ri pr.2 ++ pre, post, ?_⟩
        rw [paintsJoin]
        have harith : ri + 1 + k = ri + (k + 1) := by omega
        rw [hp, harith]
        simp [List.append_assoc]

theorem rowCellPrims_no_fill (tp : TableParams) (p : Nat) (py : ℚ) :
    ∀ (cs : TableRow) (x : ℚ) (ci : Nat),
      (rowCellPrims tp p py x ci cs).any primIsFillRect = false := by
  intro cs
  induction cs with
  | nil => intro x ci; simp [rowCellPrims]
  | cons c rest ih =>
      intro x ci
      rw [rowCellPrims]
      simp only [List.any_cons, ih, Bool.or_false]
      by_cases hl : cellLinky c = true <;> simp [cellPrim, hl, primIsFillRect]

/-- C3: in the actual body trace (rendered with absolute indices starting at
0), row k's chunk is painted with row index k wherever its page-break
position landed, and a row chunk contains the alternating-background fill
if and only if its absolute row index is odd — for every page index and
every paint position, so the parity is independent of any page break. -/
theorem table_alternating_parity_c3 (m : Measure) (tp : TableParams) (st : DocState)
    (y : ℚ) (rows : List TableRow) (k : Nat) (hk : k < rows.length) :
    ((renderRowsAux m tp rows 0 st y).1.prims
        = st.prims ++ paintsJoin tp 0 ((rowPaints tp st.cfg st.page y rows).zip rows))
    ∧ (∃ pre post,
        paintsJoin tp 0 ((rowPaints tp st.cfg st.page y rows).zip rows)
          = pre
            ++ rowPrims tp ((rowPaints tp st.cfg st.page y rows).getD k (0, 0)).1
                ((rowPaints tp st.cfg st.page y rows).getD k (0, 0)).2 k (rows.getD k [])
            ++ post)
    ∧ (∀ (p : Nat) (py : ℚ),
        ((rowPrims tp p py k (rows.getD k [])).any primIsFillRect) = true ↔ k % 2 = 1) := by
  refine ⟨renderRowsAux_spec m tp rows 0 st y, ?_, ?_⟩
  · have hlen := rowPaints_length tp st.cfg rows st.page y
    have hzl : k < ((rowPaints tp st.cfg st.page y rows).zip rows).length := by
      rw [List.length_zip, hlen]
      simp [hk]
    obtain ⟨pre, post, hp⟩ := paintsJoin_decomp tp _ 0 k hzl
    rw [zip_getD (0, 0) [] _ rows k (by rw [hlen]; exact hk) hk] at hp
    rw [Nat.zero_add] at hp
    exact ⟨pre, post, hp⟩
  · intro p py
    rw [rowPrims]
    simp only [List.any_append, rowCellPrims_no_fill, Bool.or_false]
    by_cases hodd : k % 2 = 1 <;> simp [hodd, primIsFillRect]

/-- Closed instance of C3: row index 1 carries the alternating background at
an arbitrary concrete page and paint position (page 3, y 77). -/
theorem table_alternating_parity_c3_witness :
    (1 < ([[some (CellVal.str "a")], [some (CellVal.str "b")]] : List TableRow).length)
    ∧ (((rowPrims (tableParams defaultEngine sampleState {}) 3 77 1
          (([[some (CellVal.str "a")], [some (CellVal.str "b")]] : List TableRow).getD 1 [])).any
        primIsFillRect) = true ↔ 1 % 2 = 1) := by
  refine ⟨by simp, ?_⟩
  exact (table_alternating_parity_c3 unitMeasure (tableParams defaultEngine sampleState {})
    sampleState sampleState.y [[some (CellVal.str "a")], [some (CellVal.str "b")]] 1
    (by simp)).2.2 3 77

/-- Closed instance of C5: on an empty element list (one buffered page) the
footer pass stamps exactly one footer on page 0. -/
theorem page_numbering_c5_witness :
    (((List.range ((renderElems unitMeasure defaultEngine sampleState []).page + 1)).map
        (footerPrim defaultEngine {} (renderElems unitMeasure defaultEngine sampleState []).cfg
          ((renderElems unitMeasure defaultEngine sampleState []).page + 1))).filter
      (fun pr => primPage pr == 0)).length = 1 := by
  exact (page_numbering_c5 unitMeasure defaultEngine sampleState [] {} none none).2.1 0
    (Nat.succ_pos _)

/-- Closed instance of C8: a missing cell becomes an empty-string text write
at the padded cell origin. -/
theorem table_missing_cell_default_c8_witness :
    cellPrim (tableParams defaultEngine sampleState {}) sampleState.page 0 0 100 none
      = Prim.placeText sampleState.page
          (0 + (tableParams defaultEngine sampleState {}).pad)
          (0 + (tableParams defaultEngine sampleState {}).pad) ""
          { width := some (100 - (tableParams defaultEngine sampleState {}).pad * 2) } := by
  exact (table_missing_cell_default_c8 unitMeasure defaultEngine
    (tableParams defaultEngine sampleState {}) sampleState 0 0 100).1

/-- Closed instance of the amended C9: with no display value the visible
text is the URL itself. -/
theorem plain_link_value_c9_amended_witness :
    jsStr ({} : TextAttrs).value "https://w.example/pay" = "https://w.example/pay" := by
  exact (plain_link_value_c9_amended unitMeasure defaultEngine sampleState {}
    "https://w.example/pay").2 rfl
